import Mathlib

/-!
Verification development for the triangle-mesh diagnostics engine
(CFD_PROJECT): a shallow embedding, over exact rational arithmetic, of the
detectors in src/src, together with theorems settling the specification
claims about them.

Modelling conventions, applied uniformly and noted again at each use site:

* C++ doubles and floats are modelled as exact rationals.  Rationals are
  represented by the fraction type Dbl below (an integer numerator and a
  positive integer denominator, not necessarily reduced); all arithmetic
  and comparisons are exact.  Numeric literals such as 1e-8 become the
  exact fractions 1/10^8.
* Comparisons of the form sqrt e < c (with e a sum of squares, c > 0) are
  modelled as e < c^2, which is exactly equivalent over the reals.  This
  removes every square root whose value feeds only into a comparison.
* The pierced-faces code normalizes a separating-axis candidate before
  projecting onto it.  Projection-interval comparisons are invariant under
  scaling the axis by the positive factor 1/norm, so the embedding projects
  onto the unnormalized axis; the guard that decides whether the axis is
  tested is kept exactly as in the code.
* Square roots whose values are consumed as numbers (edge lengths in the
  adjacent-faces and face-quality detectors) are modelled by the function
  sqrtD below, exact on perfect squares.  Every theorem stated about those
  detectors is a control-flow property that holds for any interpretation
  of the square-root function, because the code path and the specification
  rule consume the same computed values.
* Out-of-range container reads are undefined behaviour in C++; the
  embedding makes them total by returning a fixed default value (the zero
  vector, the degenerate zero triangle).
-/

/-- Exact fraction scalar standing in for the C++ double: numerator and
denominator, the denominator kept positive by every construction used in
the embedding (so that cross-multiplied comparisons are the exact rational
ones).  Fractions are not reduced; no normalization is ever needed because
only comparisons are observed. -/
structure Dbl where
  n : ℤ
  d : ℤ
deriving Repr, DecidableEq

/-- Embed an integer literal. -/
def Dbl.ofInt (k : ℤ) : Dbl := ⟨k, 1⟩

/-- Fraction literal k / m (used only with positive m). -/
def Dbl.frac (k m : ℤ) : Dbl := ⟨k, m⟩

/-- Exact addition. -/
def Dbl.add (a b : Dbl) : Dbl := ⟨a.n * b.d + b.n * a.d, a.d * b.d⟩

/-- Exact subtraction. -/
def Dbl.sub (a b : Dbl) : Dbl := ⟨a.n * b.d - b.n * a.d, a.d * b.d⟩

/-- Exact multiplication. -/
def Dbl.mul (a b : Dbl) : Dbl := ⟨a.n * b.n, a.d * b.d⟩

/-- Exact negation. -/
def Dbl.neg (a : Dbl) : Dbl := ⟨-a.n, a.d⟩

/-- Absolute value. -/
def Dbl.abs (a : Dbl) : Dbl := ⟨|a.n|, a.d⟩

/-- Exact division: multiply by the sign-normalized reciprocal, keeping
the denominator nonnegative.  Division by an exact zero yields the
degenerate fraction with denominator 0 (the C++ code would produce an
infinity or NaN there); every claim settled below either avoids that path
or is insensitive to the value it produces. -/
def Dbl.div (a b : Dbl) : Dbl :=
  if b.n < 0 then ⟨a.n * (-b.d), a.d * (-b.n)⟩ else ⟨a.n * b.d, a.d * b.n⟩

/-- Exact strict comparison by cross-multiplication (the denominators
produced by the embedding are positive, making this the rational order). -/
def Dbl.lt (a b : Dbl) : Bool := decide (a.n * b.d < b.n * a.d)

/-- Exact non-strict comparison by cross-multiplication. -/
def Dbl.le (a b : Dbl) : Bool := decide (a.n * b.d ≤ b.n * a.d)

/-- Mirror of std::min on doubles: the second argument when it is
strictly smaller, the first otherwise. -/
def Dbl.fmin (a b : Dbl) : Dbl := if Dbl.lt b a then b else a

/-- Mirror of std::max on doubles: the second argument when the first is
strictly smaller, the first otherwise. -/
def Dbl.fmax (a b : Dbl) : Dbl := if Dbl.lt a b then b else a

/-- Constant 0. -/
def Dbl.zero : Dbl := Dbl.ofInt 0

/-- Constant 1e-10 from the pierced-faces sources. -/
def EPSILON : Dbl := Dbl.frac 1 (10 ^ 10)

/-- Constant 1e-8 from the pierced-faces sources. -/
def ALMOST_ZERO : Dbl := Dbl.frac 1 (10 ^ 8)

/-- Square of EPSILON, used to express dist < 1e-10 as distSq < 1e-20. -/
def EPSILON_SQ : Dbl := Dbl.frac 1 (10 ^ 20)

/-- Square of ALMOST_ZERO, used to express norm < 1e-8 as normSq < 1e-16. -/
def ALMOST_ZERO_SQ : Dbl := Dbl.frac 1 (10 ^ 16)

/-- Three-dimensional vector with exact fraction coordinates, embedding
the Vector3d struct of the pierced-faces detectors. -/
structure Vector3d where
  x : Dbl
  y : Dbl
  z : Dbl
deriving Repr, DecidableEq

/-- Zero vector, Vector3d::Zero. -/
def Vector3d.zero : Vector3d := ⟨Dbl.zero, Dbl.zero, Dbl.zero⟩

/-- Componentwise sum. -/
def Vector3d.add (a b : Vector3d) : Vector3d :=
  ⟨a.x.add b.x, a.y.add b.y, a.z.add b.z⟩

/-- Componentwise difference. -/
def Vector3d.sub (a b : Vector3d) : Vector3d :=
  ⟨a.x.sub b.x, a.y.sub b.y, a.z.sub b.z⟩

/-- Dot product. -/
def Vector3d.dot (a b : Vector3d) : Dbl :=
  ((a.x.mul b.x).add (a.y.mul b.y)).add (a.z.mul b.z)

/-- Cross product. -/
def Vector3d.cross (a b : Vector3d) : Vector3d :=
  ⟨(a.y.mul b.z).sub (a.z.mul b.y),
   (a.z.mul b.x).sub (a.x.mul b.z),
   (a.x.mul b.y).sub (a.y.mul b.x)⟩

/-- Squared Euclidean norm.  The C++ code computes norm() as the square
root of this; the embedding keeps the square and compares against squared
thresholds. -/
def Vector3d.normSq (a : Vector3d) : Dbl :=
  ((a.x.mul a.x).add (a.y.mul a.y)).add (a.z.mul a.z)

/-- Componentwise near-zero test Vector3d::isZero with its default
threshold 1e-8: every coordinate has absolute value below ALMOST_ZERO. -/
def Vector3d.isZero (a : Vector3d) : Bool :=
  a.x.abs.lt ALMOST_ZERO && a.y.abs.lt ALMOST_ZERO && a.z.abs.lt ALMOST_ZERO

/-- Squared distance between two points; dist < 1e-10 in the code is
modelled as distSq < EPSILON_SQ. -/
def Vector3d.distSq (a b : Vector3d) : Dbl := (a.sub b).normSq

/-- Triangle given by its three vertices, embedding the Triangle struct. -/
structure Triangle where
  v0 : Vector3d
  v1 : Vector3d
  v2 : Vector3d
deriving Repr, DecidableEq

/-- Default (degenerate) triangle used for out-of-range reads. -/
def Triangle.default : Triangle := ⟨Vector3d.zero, Vector3d.zero, Vector3d.zero⟩

/-- Unnormalized normal direction cross(v1 - v0, v2 - v0).  The C++
get_normal divides this by its norm when the norm is at least 1e-8; the
scaling is dropped here because every consumer is scale-invariant. -/
def triangle_normal_cross (t : Triangle) : Vector3d :=
  (t.v1.sub t.v0).cross (t.v2.sub t.v0)

/-- Guard of get_normal: the unit normal exists (and then never trips the
componentwise isZero test) exactly when the raw cross norm is at least
1e-8, i.e. its square is at least ALMOST_ZERO_SQ. -/
def normal_nondegenerate (t : Triangle) : Bool :=
  ALMOST_ZERO_SQ.le (triangle_normal_cross t).normSq

/-- Edge vectors of a triangle in source order, get_edges. -/
def get_edges (t : Triangle) : List Vector3d :=
  [t.v1.sub t.v0, t.v2.sub t.v1, t.v0.sub t.v2]

/-- Projection interval of a triangle onto an axis, project_triangle:
the pair (min, max) of the three dot products, folded as in the code. -/
def project_triangle (t : Triangle) (axis : Vector3d) : Dbl × Dbl :=
  (((axis.dot t.v0).fmin (axis.dot t.v1)).fmin (axis.dot t.v2),
   ((axis.dot t.v0).fmax (axis.dot t.v1)).fmax (axis.dot t.v2))

/-- Projection-interval separation test on a given axis: the body of
check_separation after its isZero guard.  Invariant under scaling the axis
by any positive factor, hence equal on an axis and its normalization. -/
def separated_on (t1 t2 : Triangle) (axis : Vector3d) : Bool :=
  (project_triangle t1 axis).2.lt (project_triangle t2 axis).1 ||
  (project_triangle t2 axis).2.lt (project_triangle t1 axis).1

/-- Function check_separation: no separation on a componentwise-near-zero
axis, otherwise the projection-interval test. -/
def check_separation (t1 t2 : Triangle) (axis : Vector3d) : Bool :=
  if axis.isZero then false else separated_on t1 t2 axis

/-- SAT triangle-triangle intersection test check_triangle_intersection.
Normal axes are tested when the raw cross norm is at least 1e-8 (the C++
code then projects onto the unit normal, which never trips the inner
isZero guard; projecting onto the raw cross is equivalent).  Each of the
nine edge cross products is tested when it is not componentwise below
1e-8 (again the code normalizes first; equivalent).  Returns true when no
tested axis separates. -/
def check_triangle_intersection (t1 t2 : Triangle) : Bool :=
  if normal_nondegenerate t1 && separated_on t1 t2 (triangle_normal_cross t1) then false
  else if normal_nondegenerate t2 && separated_on t1 t2 (triangle_normal_cross t2) then false
  else if (get_edges t1).any fun e1 =>
            (get_edges t2).any fun e2 =>
              !(e1.cross e2).isZero && separated_on t1 t2 (e1.cross e2) then false
  else true

/-- Axes enumerated by the specification of the SAT test: normal of A,
normal of B, and the nine edge cross products. -/
def sat_axes (t1 t2 : Triangle) : List Vector3d :=
  triangle_normal_cross t1 :: triangle_normal_cross t2 ::
    ((get_edges t1).flatMap fun e1 => (get_edges t2).map fun e2 => e1.cross e2)

/-- Separation criterion exactly as claim C4 words it: some listed axis
whose Euclidean norm is not below 1e-8 (equivalently, whose squared norm
is not below 1e-16) yields disjoint projection intervals. -/
def spec_separated (t1 t2 : Triangle) : Prop :=
  ∃ ax ∈ sat_axes t1 t2, ALMOST_ZERO_SQ.le ax.normSq = true ∧ separated_on t1 t2 ax = true

/-- Separation criterion with the skip rule the code actually implements:
a triangle normal is skipped when the raw cross norm is below 1e-8, while
an edge cross product is skipped when all three of its components are
below 1e-8 in absolute value. -/
def code_separated (t1 t2 : Triangle) : Prop :=
  (normal_nondegenerate t1 = true ∧ separated_on t1 t2 (triangle_normal_cross t1) = true)
  ∨ (normal_nondegenerate t2 = true ∧ separated_on t1 t2 (triangle_normal_cross t2) = true)
  ∨ ∃ e1 ∈ get_edges t1, ∃ e2 ∈ get_edges t2,
      (e1.cross e2).isZero = false ∧ separated_on t1 t2 (e1.cross e2) = true

/-- Triangle A of the concrete pair refuting the norm-based skip rule of
claim C4: a degenerate needle along the z axis. -/
def sat_cex_tri1 : Triangle :=
  ⟨⟨Dbl.ofInt 0, Dbl.ofInt 0, Dbl.ofInt 0⟩,
   ⟨Dbl.ofInt 0, Dbl.ofInt 0, Dbl.ofInt 1⟩,
   ⟨Dbl.ofInt 0, Dbl.ofInt 0, Dbl.ofInt 0⟩⟩

/-- Triangle B of the concrete pair refuting claim C4: a degenerate
needle whose direction is tilted from the z axis by 0.75e-8 in x and y,
placed at distance 1.  The only axes with disjoint projections are the
edge cross products, which equal plus or minus (a, a, 0) with
a = 0.75e-8: their Euclidean norm is about 1.06e-8 (not degenerate under
the norm rule the claim states) but each component is below 1e-8, so the
code skips them all and reports an intersection. -/
def sat_cex_tri2 : Triangle :=
  ⟨⟨Dbl.ofInt 1, Dbl.ofInt 0, Dbl.ofInt 0⟩,
   ⟨Dbl.frac 400000003 400000000, Dbl.frac (-3) 400000000, Dbl.ofInt 1⟩,
   ⟨Dbl.ofInt 1, Dbl.ofInt 0, Dbl.ofInt 0⟩⟩

/-- List of the three vertices of a triangle in order. -/
def Triangle.verts (t : Triangle) : List Vector3d := [t.v0, t.v1, t.v2]

/-- Axis-aligned bounding box, embedding the AABB struct. -/
structure AABB where
  min : Vector3d
  max : Vector3d
deriving Repr, DecidableEq

/-- Closed-interval overlap test AABB::intersects on all three axes. -/
def AABB.intersects (a b : AABB) : Bool :=
  a.min.x.le b.max.x && b.min.x.le a.max.x &&
  a.min.y.le b.max.y && b.min.y.le a.max.y &&
  a.min.z.le b.max.z && b.min.z.le a.max.z

/-- Function compute_triangle_aabb: componentwise min and max of the three
vertices, folded from vertex 0 as in the code. -/
def compute_triangle_aabb (t : Triangle) : AABB :=
  ⟨⟨(t.v0.x.fmin t.v1.x).fmin t.v2.x,
    (t.v0.y.fmin t.v1.y).fmin t.v2.y,
    (t.v0.z.fmin t.v1.z).fmin t.v2.z⟩,
   ⟨(t.v0.x.fmax t.v1.x).fmax t.v2.x,
    (t.v0.y.fmax t.v1.y).fmax t.v2.y,
    (t.v0.z.fmax t.v1.z).fmax t.v2.z⟩⟩

/-- Shared-vertex test of the pierced-faces detectors: some vertex of the
first triangle lies within Euclidean distance 1e-10 of some vertex of the
second (expressed through squared distances, exactly equivalent). -/
def share_vertex (t1 t2 : Triangle) : Bool :=
  t1.verts.any fun a => t2.verts.any fun b => (a.distSq b).lt EPSILON_SQ

/-- Vertex-table read.  A face index row is fetched through the signed
index the C++ code uses; an out-of-range read (undefined behaviour in
C++) returns the zero vector. -/
def vAt (V : List Vector3d) (i : ℤ) : Vector3d :=
  if 0 ≤ i then V.getD i.toNat Vector3d.zero else Vector3d.zero

/-- Face-table read with an all-zero default row. -/
def face_at (F : List (ℤ × ℤ × ℤ)) (i : ℕ) : ℤ × ℤ × ℤ := F.getD i (0, 0, 0)

/-- Triangle of face i of the mesh, T(f) = (V[F[f,0]], V[F[f,1]],
V[F[f,2]]). -/
def mkTriangle (V : List Vector3d) (F : List (ℤ × ℤ × ℤ)) (i : ℕ) : Triangle :=
  ⟨vAt V (face_at F i).1, vAt V (face_at F i).2.1, vAt V (face_at F i).2.2⟩

/-- Triangle array built by the detectors, one entry per face. -/
def mkTriangles (V : List Vector3d) (F : List (ℤ × ℤ × ℤ)) : List Triangle :=
  (List.range F.length).map (mkTriangle V F)

/-- Triangle-array read through a signed face index, defaulting to the
degenerate zero triangle out of range (undefined behaviour in C++). -/
def triAt (tris : List Triangle) (i : ℤ) : Triangle :=
  if 0 ≤ i then tris.getD i.toNat Triangle.default else Triangle.default

/-- Bounding-box-array read through a signed face index, defaulting to
the zero box (the box of the zero triangle) out of range. -/
def bbAt (bbs : List AABB) (i : ℤ) : AABB :=
  if 0 ≤ i then bbs.getD i.toNat ⟨Vector3d.zero, Vector3d.zero⟩
  else ⟨Vector3d.zero, Vector3d.zero⟩

/-- Per-pair detection test shared by all pierced-faces modes, in source
order: bounding boxes overlap, the triangles do not share a vertex by
proximity, and the SAT test reports an intersection. -/
def pairTest (tris : List Triangle) (bbs : List AABB) (f g : ℤ) : Bool :=
  (bbAt bbs f).intersects (bbAt bbs g) &&
  !share_vertex (triAt tris f) (triAt tris g) &&
  check_triangle_intersection (triAt tris f) (triAt tris g)

/-- Octree node: center, half-extent size, depth, bucketed face indices,
and the present children tagged by octant index (absent children, null in
the C++ array of eight, are simply missing from the list). -/
inductive OctreeNode where
  | node (center : Vector3d) (size : Dbl) (depth : ℕ)
      (face_indices : List ℤ) (children : List (ℕ × OctreeNode)) : OctreeNode
deriving Repr

/-- Bucketed face indices of a node. -/
def OctreeNode.faces : OctreeNode → List ℤ
  | .node _ _ _ fi _ => fi

/-- Children of a node. -/
def OctreeNode.childList : OctreeNode → List (ℕ × OctreeNode)
  | .node _ _ _ _ ch => ch

/-- Octant selector OctreeNode::get_octant: bit 1 for x at or beyond the
center, bit 2 for y, bit 4 for z. -/
def get_octant (center p : Vector3d) : ℕ :=
  (if center.x.le p.x then 1 else 0) +
  (if center.y.le p.y then 2 else 0) +
  (if center.z.le p.z then 4 else 0)

/-- Centroid of a triangle as computed inside build_octree: componentwise
mean of the vertices. -/
def tri_center (t : Triangle) : Vector3d :=
  ⟨((t.v0.x.add t.v1.x).add t.v2.x).div (Dbl.ofInt 3),
   ((t.v0.y.add t.v1.y).add t.v2.y).div (Dbl.ofInt 3),
   ((t.v0.z.add t.v1.z).add t.v2.z).div (Dbl.ofInt 3)⟩

/-- Child center: parent center offset by plus or minus half along each
axis according to the octant bits. -/
def child_center (center : Vector3d) (half : Dbl) (i : ℕ) : Vector3d :=
  ⟨if i % 2 = 1 then center.x.add half else center.x.sub half,
   if i / 2 % 2 = 1 then center.y.add half else center.y.sub half,
   if i / 4 % 2 = 1 then center.z.add half else center.z.sub half⟩

/-- Cube cell box of half-width half around a center point. -/
def cell_box (center : Vector3d) (half : Dbl) : AABB :=
  ⟨⟨center.x.sub half, center.y.sub half, center.z.sub half⟩,
   ⟨center.x.add half, center.y.add half, center.z.add half⟩⟩

/-- Function build_octree: a node keeps its face list; it is a leaf when
the depth bound is reached or at most min_faces faces remain, otherwise
the faces are partitioned by the octant of their centroid and nonempty
octants are built recursively at half size.  The structural fuel argument
counts the remaining depth budget max_depth - depth, so fuel = 0 is
exactly the depth >= max_depth guard of the source; the depth field is
still carried for the node records. -/
def build_octree (tris : List Triangle) : ℕ → List ℤ → Vector3d → Dbl → ℕ → ℕ → OctreeNode
  | 0, face_indices, center, size, depth, _ =>
    .node center size depth face_indices []
  | fuel + 1, face_indices, center, size, depth, min_faces =>
    if face_indices.length ≤ min_faces then
      .node center size depth face_indices []
    else
      .node center size depth face_indices
        ((List.range 8).filterMap fun i =>
          let sub := face_indices.filter fun fidx =>
            get_octant center (tri_center (triAt tris fidx)) = i
          if sub.isEmpty then none
          else some (i, build_octree tris fuel sub
            (child_center center (size.div (Dbl.ofInt 2)) i)
            (size.div (Dbl.ofInt 2)) (depth + 1) min_faces))

/-- Sentinel standing for DBL_MAX in the bound-initialization folds. -/
def DBL_MAX_SENT : Dbl := Dbl.ofInt (10 ^ 309)

/-- Componentwise minimum of all triangle vertices, folded from the
DBL_MAX sentinel exactly as in the code. -/
def mesh_min (tris : List Triangle) : Vector3d :=
  tris.foldl
    (fun acc t => t.verts.foldl
      (fun a v => ⟨a.x.fmin v.x, a.y.fmin v.y, a.z.fmin v.z⟩) acc)
    ⟨DBL_MAX_SENT, DBL_MAX_SENT, DBL_MAX_SENT⟩

/-- Componentwise maximum of all triangle vertices, folded from the
lowest-value sentinel. -/
def mesh_max (tris : List Triangle) : Vector3d :=
  tris.foldl
    (fun acc t => t.verts.foldl
      (fun a v => ⟨a.x.fmax v.x, a.y.fmax v.y, a.z.fmax v.z⟩) acc)
    ⟨DBL_MAX_SENT.neg, DBL_MAX_SENT.neg, DBL_MAX_SENT.neg⟩

/-- Root center of the octree: midpoint of the mesh bounds. -/
def mesh_center (tris : List Triangle) : Vector3d :=
  ⟨((mesh_min tris).x.add (mesh_max tris).x).div (Dbl.ofInt 2),
   ((mesh_min tris).y.add (mesh_max tris).y).div (Dbl.ofInt 2),
   ((mesh_min tris).z.add (mesh_max tris).z).div (Dbl.ofInt 2)⟩

/-- Root size of the octree: largest extent times 1.01. -/
def mesh_size (tris : List Triangle) : Dbl :=
  ((((mesh_max tris).x.sub (mesh_min tris).x).fmax
    ((mesh_max tris).y.sub (mesh_min tris).y)).fmax
    ((mesh_max tris).z.sub (mesh_min tris).z)).mul (Dbl.frac 101 100)

/-- Face-index list 0 .. m-1 handed to the root of the octree (and used
as the all-faces target list of the local mode). -/
def all_faces (m : ℕ) : List ℤ := (List.range m).map Int.ofNat

/-- Octree built over a full triangle array, shared verbatim by the full
detector and by initialize_spatial_index. -/
def build_full_octree (tris : List Triangle) (m : ℕ) : OctreeNode :=
  build_octree tris 8 (all_faces m) (mesh_center tris) (mesh_size tris) 0 20

/-- Recursive octree query of the full detector for one face: at a leaf
(no children) every bucketed face distinct from the query face that
passes the pair test is recorded in both orientations; at an internal
node the query recurses into exactly the children whose cell box (child
center plus or minus the parent half size) overlaps the query box.  The
recursion is structural on a fuel argument always instantiated above the
height of every tree the program builds (max depth 8), so the fuel-out
branch is never taken on those trees. -/
def query_octree (tris : List Triangle) (bbs : List AABB) (f : ℤ) :
    ℕ → OctreeNode → List (ℤ × ℤ)
  | 0, _ => []
  | fuel + 1, .node center size _ fi ch =>
    if ch.isEmpty then
      (fi.filter fun g => g ≠ f && pairTest tris bbs f g).flatMap fun g => [(f, g), (g, f)]
    else
      ch.flatMap fun ic =>
        if (bbAt bbs f).intersects
            (cell_box (child_center center (size.div (Dbl.ofInt 2)) ic.1) (size.div (Dbl.ofInt 2))) then
          query_octree tris bbs f fuel ic.2
        else []

/-- Fuel used for every octree walk: one more than the maximal depth 8 of
the built trees, hence never exhausted on them. -/
def OCT_FUEL : ℕ := 9

/-- Hit list of the full detector detect_pierced_faces: for every face in
index order, the pairs recorded by its octree query.  Every recorded
intersection appears in both orientations. -/
def detect_hits (V : List Vector3d) (F : List (ℤ × ℤ × ℤ)) : List (ℤ × ℤ) :=
  let tris := mkTriangles V F
  let bbs := tris.map compute_triangle_aabb
  let root := build_full_octree tris F.length
  (all_faces F.length).flatMap fun fi => query_octree tris bbs fi OCT_FUEL root

/-- Set of intersecting faces returned by the full detector: both
endpoints of every recorded hit. -/
def pierced_faces (V : List Vector3d) (F : List (ℤ × ℤ × ℤ)) : Finset ℤ :=
  ((detect_hits V F).flatMap fun p => [p.1, p.2]).toFinset

/-- Intersection map returned by the full detector: partners recorded
under each first component. -/
def pierced_map (V : List Vector3d) (F : List (ℤ × ℤ × ℤ)) (f : ℤ) : Finset ℤ :=
  (((detect_hits V F).filter fun p => p.1 = f).map Prod.snd).toFinset

/-- Key set of the intersection map: an entry is created exactly for the
first components of recorded hits. -/
def pierced_keys (V : List Vector3d) (F : List (ℤ × ℤ × ℤ)) : Finset ℤ :=
  ((detect_hits V F).map Prod.fst).toFinset

/-- Persistent spatial-index state: the contents of the global namespace
of the incremental pierced-faces detector (persistent triangles and
bounding boxes, the persistent octree or null, the recorded mesh sizes,
and the initialization flag). -/
structure IndexState where
  triangles : List Triangle
  bboxes : List AABB
  octree : Option OctreeNode
  num_faces : ℕ
  num_vertices : ℕ
  initialized : Bool

/-- Function initialize_spatial_index: rebuild triangles, boxes and the
octree from the mesh, record its sizes, mark initialized. -/
def initialize_spatial_index (V : List Vector3d) (F : List (ℤ × ℤ × ℤ)) : IndexState :=
  ⟨mkTriangles V F, (mkTriangles V F).map compute_triangle_aabb,
   some (build_full_octree (mkTriangles V F) F.length), F.length, V.length, true⟩

/-- Function update_spatial_index: full initialization when uninitialized
or when either mesh size changed; otherwise the triangles and boxes of
the in-range modified faces are recomputed from the new mesh (invalid
indices are logged and skipped), and the octree is rebuilt over the
updated triangles exactly when the number of modified entries exceeds
one tenth of the face count (0.1, exact here, is an inexact double in the
C++ source; no claim depends on that boundary). -/
def update_spatial_index (s : IndexState) (V : List Vector3d) (F : List (ℤ × ℤ × ℤ))
    (mods : List ℤ) : IndexState :=
  if s.initialized = false then initialize_spatial_index V F
  else if s.num_faces ≠ F.length ∨ s.num_vertices ≠ V.length then initialize_spatial_index V F
  else
    let tris2 := mods.foldl (fun acc i =>
      if 0 ≤ i ∧ i < (s.num_faces : ℤ) then acc.set i.toNat (mkTriangle V F i.toNat)
      else acc) s.triangles
    let bbs2 := mods.foldl (fun acc i =>
      if 0 ≤ i ∧ i < (s.num_faces : ℤ) then
        acc.set i.toNat (compute_triangle_aabb (mkTriangle V F i.toNat))
      else acc) s.bboxes
    let oct2 :=
      if ((Dbl.ofInt s.num_faces).mul (Dbl.frac 1 10)).lt (Dbl.ofInt mods.length) then
        some (build_full_octree tris2 s.num_faces)
      else s.octree
    ⟨tris2, bbs2, oct2, s.num_faces, s.num_vertices, s.initialized⟩

/-- Candidate-gathering octree walk of the local detector for one target
face: stop when the target box misses the node cell (node center plus or
minus half the node size), collect the bucket at a leaf, otherwise
recurse into every present child.  The structural fuel is always
instantiated above the height of the built trees. -/
def find_candidates (bbs : List AABB) (t : ℤ) : ℕ → OctreeNode → Finset ℤ
  | 0, _ => ∅
  | fuel + 1, .node center size _ fi ch =>
    if !((bbAt bbs t).intersects (cell_box center (size.div (Dbl.ofInt 2)))) then ∅
    else if ch.isEmpty then fi.toFinset
    else ch.foldl (fun acc ic => acc ∪ find_candidates bbs t fuel ic.2) ∅

/-- One step of the candidate-set loop of detect_pierced_faces_local: the
target index is inserted into the candidate set before the range check
(as in the source), and only a valid index additionally walks the
persistent octree (a null octree contributes nothing). -/
def local_cand_step (s : IndexState) (acc : Finset ℤ) (t : ℤ) : Finset ℤ :=
  let acc2 := insert t acc
  if 0 ≤ t ∧ t < (s.num_faces : ℤ) then
    match s.octree with
    | some root => acc2 ∪ find_candidates s.bboxes t OCT_FUEL root
    | none => acc2
  else acc2

/-- Candidate set of detect_pierced_faces_local for a target list. -/
def local_candidates (s : IndexState) (targets : List ℤ) : Finset ℤ :=
  targets.foldl (local_cand_step s) ∅

/-- Recorded intersections of detect_pierced_faces_local: for each
candidate that is itself a target, every other candidate passing the
pair test; for each candidate that is not a target, every target
distinct from it passing the pair test; both orientations recorded.  The
C++ iteration order over the unordered containers is unspecified, and
the recorded sets do not depend on it. -/
def local_hits (s : IndexState) (targets : List ℤ) : Finset (ℤ × ℤ) :=
  (local_candidates s targets).biUnion fun fidx =>
    if fidx ∈ targets then
      ((local_candidates s targets).filter fun g =>
          g ≠ fidx ∧ pairTest s.triangles s.bboxes fidx g = true).biUnion
        fun g => {(fidx, g), (g, fidx)}
    else
      ((targets.filter fun tg => tg ≠ fidx && pairTest s.triangles s.bboxes fidx tg).toFinset).biUnion
        fun tg => {(fidx, tg), (tg, fidx)}

/-- Function detect_pierced_faces_local: initialize first when needed,
then gather candidates and record intersections; returns the state it
ran against together with the recorded hits. -/
def detect_pierced_faces_local (s : IndexState) (V : List Vector3d)
    (F : List (ℤ × ℤ × ℤ)) (targets : List ℤ) : IndexState × Finset (ℤ × ℤ) :=
  let s2 := if s.initialized then s else initialize_spatial_index V F
  (s2, local_hits s2 targets)

/-- Intersecting-face set of a local run: both endpoints of every
recorded hit. -/
def local_faces (hits : Finset (ℤ × ℤ)) : Finset ℤ :=
  hits.image Prod.fst ∪ hits.image Prod.snd

/-- Intersection map of a local run. -/
def local_map (hits : Finset (ℤ × ℤ)) (f : ℤ) : Finset ℤ :=
  (hits.filter fun p => p.1 = f).image Prod.snd

/-- Well-formed-face-table predicate: every vertex index of every face is
in range (claim C2 assumes it). -/
def valid_mesh (V : List Vector3d) (F : List (ℤ × ℤ × ℤ)) : Prop :=
  ∀ fc ∈ F, 0 ≤ fc.1 ∧ fc.1 < (V.length : ℤ) ∧ 0 ≤ fc.2.1 ∧ fc.2.1 < (V.length : ℤ) ∧
    0 ≤ fc.2.2 ∧ fc.2.2 < (V.length : ℤ)

/-- Agreement of a state with a mesh: the persistent triangles and boxes
are the ones a fresh initialization on that mesh would build, the
recorded sizes match, and the state is initialized.  Nothing is assumed
about the octree: the local detector tolerates a stale octree, which can
only enlarge its candidate sets. -/
def IndexInvariant (s : IndexState) (V : List Vector3d) (F : List (ℤ × ℤ × ℤ)) : Prop :=
  s.triangles = mkTriangles V F ∧
  s.bboxes = (mkTriangles V F).map compute_triangle_aabb ∧
  s.num_faces = F.length ∧ s.num_vertices = V.length ∧ s.initialized = true

/-- Covering condition on an update: the modified-face list names every
face whose triangle in the new mesh differs from the persisted one. -/
def covers_changes (s : IndexState) (V : List Vector3d) (F : List (ℤ × ℤ × ℤ))
    (mods : List ℤ) : Prop :=
  ∀ k : ℕ, k < F.length → mkTriangle V F k ≠ s.triangles.getD k Triangle.default →
    (k : ℤ) ∈ mods

/-- Vertex table of scenario 4 of the specification: an axis-aligned
triangle in the plane z = 0 and a vertical triangle passing through its
interior, sharing no vertex. -/
def crossV : List Vector3d :=
  [⟨Dbl.ofInt 0, Dbl.ofInt 0, Dbl.ofInt 0⟩,
   ⟨Dbl.ofInt 2, Dbl.ofInt 0, Dbl.ofInt 0⟩,
   ⟨Dbl.ofInt 0, Dbl.ofInt 2, Dbl.ofInt 0⟩,
   ⟨Dbl.frac 1 2, Dbl.frac 1 4, Dbl.ofInt (-1)⟩,
   ⟨Dbl.frac 1 2, Dbl.frac 1 4, Dbl.ofInt 1⟩,
   ⟨Dbl.frac 1 2, Dbl.ofInt 2, Dbl.ofInt 0⟩]

/-- Face table of the two-triangle crossing mesh. -/
def crossF : List (ℤ × ℤ × ℤ) := [(0, 1, 2), (3, 4, 5)]

/-- Same vertex table with the second triangle translated far away along
x, so that the two triangles no longer intersect. -/
def crossVfar : List Vector3d :=
  [⟨Dbl.ofInt 0, Dbl.ofInt 0, Dbl.ofInt 0⟩,
   ⟨Dbl.ofInt 2, Dbl.ofInt 0, Dbl.ofInt 0⟩,
   ⟨Dbl.ofInt 0, Dbl.ofInt 2, Dbl.ofInt 0⟩,
   ⟨Dbl.frac 201 2, Dbl.frac 1 4, Dbl.ofInt (-1)⟩,
   ⟨Dbl.frac 201 2, Dbl.frac 1 4, Dbl.ofInt 1⟩,
   ⟨Dbl.frac 201 2, Dbl.ofInt 2, Dbl.ofInt 0⟩]

/-- State obtained by initializing on the crossing mesh and then updating
to the moved mesh with an empty modified-face list: the update satisfies
the ten-percent proviso vacuously, yet leaves the persisted triangles
stale. -/
def stale_state : IndexState :=
  update_spatial_index (initialize_spatial_index crossV crossF) crossVfar crossF []

/-- Vertex table of the unit-square mesh of scenario 2 (two coplanar
triangles sharing an edge). -/
def sqV : List Vector3d :=
  [⟨Dbl.ofInt 0, Dbl.ofInt 0, Dbl.ofInt 0⟩,
   ⟨Dbl.ofInt 1, Dbl.ofInt 0, Dbl.ofInt 0⟩,
   ⟨Dbl.ofInt 0, Dbl.ofInt 1, Dbl.ofInt 0⟩,
   ⟨Dbl.ofInt 1, Dbl.ofInt 1, Dbl.ofInt 0⟩]

/-- Face table of the unit-square mesh. -/
def sqF : List (ℤ × ℤ × ℤ) := [(0, 1, 2), (1, 3, 2)]

/-- Single-face mesh used to exhibit the invalid-target leak of
detect_pierced_faces_local: one triangle whose interior contains the
origin. -/
def oneV : List Vector3d :=
  [⟨Dbl.ofInt (-1), Dbl.ofInt (-1), Dbl.ofInt 0⟩,
   ⟨Dbl.ofInt 2, Dbl.ofInt (-1), Dbl.ofInt 0⟩,
   ⟨Dbl.ofInt (-1), Dbl.ofInt 2, Dbl.ofInt 0⟩]

/-- Face table of the single-face mesh. -/
def oneF : List (ℤ × ℤ × ℤ) := [(0, 1, 2)]

/-- Newton iteration for the integer square root, structural on a fuel
argument so that concrete values reduce inside the kernel. -/
def isqrt_iter (n : ℕ) : ℕ → ℕ → ℕ
  | 0, x => x
  | fuel + 1, x =>
    let y := (x + n / x) / 2
    if y < x then isqrt_iter n fuel y else x

/-- Floor integer square root (Newton from n with fuel n, far more fuel
than the logarithmically many steps the iteration takes). -/
def isqrt (n : ℕ) : ℕ := if n = 0 then 0 else isqrt_iter n n n

/-- Integer square root of the scaled numerator, giving a computable
stand-in for the C library sqrt on the fraction n/d (with d positive):
sqrt(n/d) = sqrt(n d)/d, exact whenever n d is a perfect square and a
floor approximation otherwise.  Negative input (NaN in C) returns 0.
Every theorem below about a detector that consumes square-root values is
a control-flow property that holds for any interpretation of the square
root, because the code path and the specification rule compare the same
computed values. -/
def sqrtD (a : Dbl) : Dbl :=
  if a.n ≤ 0 then Dbl.zero else Dbl.frac (isqrt (a.n.toNat * a.d.toNat)) a.d

/-- Euclidean length of a vector (sqrt of the squared norm). -/
def Vector3d.len (a : Vector3d) : Dbl := sqrtD a.normSq

/-- Method Triangle::average_edge_length of the adjacent-faces detector:
mean of the three edge lengths. -/
def average_edge_length (t : Triangle) : Dbl :=
  (((t.v1.sub t.v0).len.add (t.v2.sub t.v1).len).add (t.v0.sub t.v2).len).div (Dbl.ofInt 3)

/-- Validity test on one face row of the adjacent-faces detector: all
three vertex indices in range. -/
def face_valid (n : ℕ) (fc : ℤ × ℤ × ℤ) : Bool :=
  decide (0 ≤ fc.1) && decide (fc.1 < (n : ℤ)) &&
  decide (0 ≤ fc.2.1) && decide (fc.2.1 < (n : ℤ)) &&
  decide (0 ≤ fc.2.2) && decide (fc.2.2 < (n : ℤ))

/-- Centroid distance d of a face pair in detect_adjacent_faces. -/
def adj_d (V : List Vector3d) (F : List (ℤ × ℤ × ℤ)) (i j : ℕ) : Dbl :=
  ((tri_center (mkTriangle V F i)).sub (tri_center (mkTriangle V F j))).len

/-- Edge scale L of a face pair: the smaller average edge length. -/
def adj_L (V : List Vector3d) (F : List (ℤ × ℤ × ℤ)) (i j : ℕ) : Dbl :=
  (average_edge_length (mkTriangle V F i)).fmin (average_edge_length (mkTriangle V F j))

/-- Pair emission of one inner-loop step of detect_adjacent_faces, after
both validity checks: with d the centroid distance and L the smaller
average edge length, a pair is emitted when both are below 1e-10, skipped
when only L is, and otherwise emitted exactly when d / L is at most the
threshold. -/
def adj_pair_emit (V : List Vector3d) (F : List (ℤ × ℤ × ℤ)) (threshold : Dbl)
    (i j : ℕ) : List (ℕ × ℕ) :=
  if (adj_L V F i j).lt EPSILON then
    (if (adj_d V F i j).lt EPSILON then [(i, j)] else [])
  else if ((adj_d V F i j).div (adj_L V F i j)).le threshold then [(i, j)] else []

/-- Function detect_adjacent_faces: the quadratic double loop over
ordered pairs i < j, skipping any face with an out-of-range vertex index
(with a warning in the source), and emitting pairs per adj_pair_emit. -/
def detect_adjacent_faces (V : List Vector3d) (F : List (ℤ × ℤ × ℤ))
    (threshold : Dbl) : List (ℕ × ℕ) :=
  (List.range F.length).flatMap fun i =>
    if !face_valid V.length (face_at F i) then []
    else
      (List.range' (i + 1) (F.length - (i + 1))).flatMap fun j =>
        if !face_valid V.length (face_at F j) then []
        else adj_pair_emit V F threshold i j

/-- Three-branch adjacency rule exactly as claim C5 words it, over the
same centroid distance d and edge scale L the code computes. -/
def spec_adjacent_rule (V : List Vector3d) (F : List (ℤ × ℤ × ℤ)) (threshold : Dbl)
    (i j : ℕ) : Prop :=
  ((adj_L V F i j).lt EPSILON = true ∧ (adj_d V F i j).lt EPSILON = true)
  ∨ ((adj_L V F i j).lt EPSILON = false ∧
      ((adj_d V F i j).div (adj_L V F i j)).le threshold = true)

/-- Side a of the quality formula: distance between the second and third
vertices, as in calculate_face_quality. -/
def tri_side_a (t : Triangle) : Dbl := (t.v1.sub t.v2).len

/-- Side b: distance between the first and third vertices. -/
def tri_side_b (t : Triangle) : Dbl := (t.v0.sub t.v2).len

/-- Side c: distance between the first and second vertices. -/
def tri_side_c (t : Triangle) : Dbl := (t.v0.sub t.v1).len

/-- Half-perimeter s = (a + b + c) / 2. -/
def tri_s (t : Triangle) : Dbl :=
  (((tri_side_a t).add (tri_side_b t)).add (tri_side_c t)).div (Dbl.ofInt 2)

/-- Heron area sqrt(max(0, s (s-a) (s-b) (s-c))). -/
def heron_area (t : Triangle) : Dbl :=
  sqrtD (Dbl.zero.fmax ((((tri_s t).mul ((tri_s t).sub (tri_side_a t))).mul
    ((tri_s t).sub (tri_side_b t))).mul ((tri_s t).sub (tri_side_c t))))

/-- Function calculate_face_quality: 0 for area below 1e-10, otherwise
2 r / R with r = area / s and R = a b c / (4 area), clamped into [0, 1]
by min(1, max(0, .)). -/
def calculate_face_quality (t : Triangle) : Dbl :=
  if (heron_area t).lt EPSILON then Dbl.zero
  else
    (Dbl.ofInt 1).fmin (Dbl.zero.fmax ((Dbl.ofInt 2).mul
      (((heron_area t).div (tri_s t)).div
        ((((tri_side_a t).mul (tri_side_b t)).mul (tri_side_c t)).div
          ((Dbl.ofInt 4).mul (heron_area t))))))

/-- Per-face quality list computed by analyze_face_quality (vertex rows
are read unchecked in the source; out-of-range reads default as usual). -/
def quality_values (V : List Vector3d) (F : List (ℤ × ℤ × ℤ)) : List Dbl :=
  (List.range F.length).map fun i => calculate_face_quality (mkTriangle V F i)

/-- Histogram bin of a quality value per the if-else chain of
analyze_face_quality: bin k for k/10 <= quality < (k+1)/10, the last
branch catching everything at or above 0.9. -/
def quality_bin (q : Dbl) : ℕ :=
  if q.lt (Dbl.frac 1 10) then 0
  else if q.lt (Dbl.frac 2 10) then 1
  else if q.lt (Dbl.frac 3 10) then 2
  else if q.lt (Dbl.frac 4 10) then 3
  else if q.lt (Dbl.frac 5 10) then 4
  else if q.lt (Dbl.frac 6 10) then 5
  else if q.lt (Dbl.frac 7 10) then 6
  else if q.lt (Dbl.frac 8 10) then 7
  else if q.lt (Dbl.frac 9 10) then 8
  else 9

/-- Count of faces falling into one histogram bin. -/
def quality_distribution (V : List Vector3d) (F : List (ℤ × ℤ × ℤ)) (b : ℕ) : ℕ :=
  ((quality_values V F).map quality_bin).count b

/-- Quantization tolerance 1e-5 of the geometric edge key. -/
def TOL_QUANT : Dbl := Dbl.frac 1 (10 ^ 5)

/-- Geometric edge key of the overlapping-edges detector: the
componentwise minima of the two endpoints followed by the componentwise
maxima, exactly as the EdgeKey constructor computes them. -/
structure EdgeKey where
  x1 : Dbl
  y1 : Dbl
  z1 : Dbl
  x2 : Dbl
  y2 : Dbl
  z2 : Dbl
deriving Repr, DecidableEq

/-- EdgeKey constructor from the two endpoints. -/
def mkEdgeKey (p q : Vector3d) : EdgeKey :=
  ⟨p.x.fmin q.x, p.y.fmin q.y, p.z.fmin q.z, p.x.fmax q.x, p.y.fmax q.y, p.z.fmax q.z⟩

/-- Tolerance equality of EdgeKey: every component pair within 1e-5. -/
def edgeKeyEq (k1 k2 : EdgeKey) : Bool :=
  (k1.x1.sub k2.x1).abs.lt TOL_QUANT && (k1.y1.sub k2.y1).abs.lt TOL_QUANT &&
  (k1.z1.sub k2.z1).abs.lt TOL_QUANT && (k1.x2.sub k2.x2).abs.lt TOL_QUANT &&
  (k1.y2.sub k2.y2).abs.lt TOL_QUANT && (k1.z2.sub k2.z2).abs.lt TOL_QUANT

/-- Face-edge incidences in scan order: faces in index order, each face
contributing its edges (v1,v2), (v2,v3), (v3,v1). -/
def edge_incidences (F : List (ℤ × ℤ × ℤ)) : List (ℤ × ℤ) :=
  F.flatMap fun fc => [(fc.1, fc.2.1), (fc.2.1, fc.2.2), (fc.2.2, fc.1)]

/-- Append one incidence to the first bucket whose key matches under the
tolerance equality, or open a new bucket at the end.  This models the
C++ unordered_map under its container contract (hash consistent with
key equality); keeping buckets in first-insertion order determinizes the
unspecified iteration order without affecting per-bucket contents. -/
def bucket_insert (key : EdgeKey) (e : ℤ × ℤ) :
    List (EdgeKey × List (ℤ × ℤ)) → List (EdgeKey × List (ℤ × ℤ))
  | [] => [(key, [e])]
  | (k, l) :: rest =>
    if edgeKeyEq k key then (k, l ++ [e]) :: rest
    else (k, l) :: bucket_insert key e rest

/-- Edge map of detect_overlapping_edges: all incidences bucketed by
geometric edge key in scan order. -/
def edge_buckets (V : List Vector3d) (F : List (ℤ × ℤ × ℤ)) :
    List (EdgeKey × List (ℤ × ℤ)) :=
  (edge_incidences F).foldl
    (fun bs e => bucket_insert (mkEdgeKey (vAt V e.1) (vAt V e.2)) e bs) []

/-- Function detect_overlapping_edges: one representative per bucket with
more than two incidences, namely the first incidence of the bucket. -/
def detect_overlapping_edges (V : List Vector3d) (F : List (ℤ × ℤ × ℤ)) :
    List (ℤ × ℤ) :=
  (edge_buckets V F).filterMap fun b => if 2 < b.2.length then b.2.head? else none

/-- Canonical topological edges of all faces in scan order, as in the
non-manifold-vertices detector: ordered pair (min, max) of the endpoint
indices, three edges per face. -/
def canonical_edges (F : List (ℤ × ℤ × ℤ)) : List (ℤ × ℤ) :=
  F.flatMap fun fc =>
    [(min fc.1 fc.2.1, max fc.1 fc.2.1),
     (min fc.2.1 fc.2.2, max fc.2.1 fc.2.2),
     (min fc.2.2 fc.1, max fc.2.2 fc.1)]

/-- Function detect_non_manifold_vertices: free edges are the canonical
edges with exactly one incidence; each vertex counts the free edges it
ends (a degenerate free edge (v,v) counts twice, as the C++ increments
both endpoint counters); the result is the set of vertices with count at
least four.  The vertex table and the tolerance argument are not
consulted.  The result is a set because the C++ output order (an
unordered_map iteration) is unspecified. -/
def detect_non_manifold_vertices (V : List Vector3d) (F : List (ℤ × ℤ × ℤ))
    (tol : Dbl) : Finset ℤ :=
  let edges := canonical_edges F
  let free := (edges.filter fun e => edges.count e = 1).dedup
  let count := fun v : ℤ =>
    (free.map fun e => (if e.1 = v then (1 : ℕ) else 0) + (if e.2 = v then (1 : ℕ) else 0)).sum
  (free.flatMap fun e => [e.1, e.2]).toFinset.filter fun v => 4 ≤ count v

/-- Vertex table of the doubled-edge mesh of scenario 5: three triangles
sharing the edge (0,1). -/
def dblV : List Vector3d :=
  [⟨Dbl.ofInt 0, Dbl.ofInt 0, Dbl.ofInt 0⟩,
   ⟨Dbl.ofInt 1, Dbl.ofInt 0, Dbl.ofInt 0⟩,
   ⟨Dbl.ofInt 0, Dbl.ofInt 1, Dbl.ofInt 0⟩,
   ⟨Dbl.ofInt 0, Dbl.ofInt 0, Dbl.ofInt 1⟩,
   ⟨Dbl.ofInt 1, Dbl.ofInt 1, Dbl.ofInt 1⟩]

/-- Face table of the doubled-edge mesh. -/
def dblF : List (ℤ × ℤ × ℤ) := [(0, 1, 2), (0, 1, 3), (0, 1, 4)]

/-- Claim C4, counterexample: on the concrete pair above the SAT routine
does not declare the triangles separated, although an axis of norm at
least 1e-8 among the tested ones (an edge cross product) yields disjoint
projection intervals; the claimed equivalence with the norm-based skip
rule is therefore false at this input. -/
theorem C4_counterexample :
    check_triangle_intersection sat_cex_tri1 sat_cex_tri2 = true
      ∧ spec_separated sat_cex_tri1 sat_cex_tri2 := by
  constructor
  · decide
  · unfold spec_separated
    decide

/-- Claim C4, amended: check_triangle_intersection declares a pair of
triangles separated if and only if some tested axis yields disjoint
projection intervals, where a triangle normal is skipped as degenerate
exactly when its norm is below 1e-8, while an edge cross product is
skipped exactly when all three of its components are below 1e-8 in
absolute value (a componentwise test, not a norm test). -/
theorem C4_sat_separation (t1 t2 : Triangle) :
    check_triangle_intersection t1 t2 = false ↔ code_separated t1 t2 := by
  have hb : ∀ (a b c : Bool),
      ((if a then false else if b then false else if c then false else true) = false)
        ↔ (a = true ∨ b = true ∨ c = true) := by decide
  unfold check_triangle_intersection code_separated
  rw [hb]
  simp [List.any_eq_true, Bool.and_eq_true, Bool.not_eq_true']


/-- Pairs recorded by a full-detector octree query always come with their
mirror image: both orientations are inserted at the same program point. -/
theorem query_octree_swap {tris : List Triangle} {bbs : List AABB} {f : ℤ}
    {fuel : ℕ} {n : OctreeNode} {a b : ℤ}
    (h : (a, b) ∈ query_octree tris bbs f fuel n) :
    (b, a) ∈ query_octree tris bbs f fuel n := by
  induction fuel generalizing n with
  | zero => simp [query_octree] at h
  | succ fuel ih =>
    cases n with
    | node c s d fi ch =>
      cases hch : ch.isEmpty with
      | true =>
        simp only [query_octree, hch, if_true] at h ⊢
        rw [List.mem_flatMap] at h ⊢
        obtain ⟨g, hg, hp⟩ := h
        refine ⟨g, hg, ?_⟩
        simp only [List.mem_cons, List.mem_singleton, Prod.mk.injEq] at hp ⊢
        tauto
      | false =>
        simp only [query_octree, hch, Bool.false_eq_true, if_false] at h ⊢
        rw [List.mem_flatMap] at h ⊢
        obtain ⟨ic, hic, hin⟩ := h
        refine ⟨ic, hic, ?_⟩
        by_cases hbb : (bbAt bbs f).intersects
            (cell_box (child_center c (s.div (Dbl.ofInt 2)) ic.1) (s.div (Dbl.ofInt 2))) = true
        · rw [if_pos hbb] at hin ⊢
          exact ih hin
        · rw [if_neg hbb] at hin
          simp at hin

/-- Soundness of the full-detector octree query over a built tree: every
recorded pair joins the queried face with a face of the build input that
is distinct from it and passes the pair test. -/
theorem query_octree_sound {tris : List Triangle} {bbs : List AABB} {f : ℤ}
    {fuel : ℕ} {a b : ℤ} :
    ∀ {bfuel : ℕ} {faces : List ℤ} {c : Vector3d} {s : Dbl} {d mf : ℕ},
    (a, b) ∈ query_octree tris bbs f fuel (build_octree tris bfuel faces c s d mf) →
    ∃ g ∈ faces, g ≠ f ∧ pairTest tris bbs f g = true ∧
      ((a, b) = (f, g) ∨ (a, b) = (g, f)) := by
  induction fuel with
  | zero => intro bfuel faces c s d mf h; simp [query_octree] at h
  | succ fuel ih =>
    intro bfuel faces c s d mf h
    have leafcase : ∀ (c2 : Vector3d) (s2 : Dbl) (d2 : ℕ),
        (a, b) ∈ query_octree tris bbs f (fuel + 1) (.node c2 s2 d2 faces []) →
        ∃ g ∈ faces, g ≠ f ∧ pairTest tris bbs f g = true ∧
          ((a, b) = (f, g) ∨ (a, b) = (g, f)) := by
      intro c2 s2 d2 hh
      simp only [query_octree, List.isEmpty_nil, if_true] at hh
      rw [List.mem_flatMap] at hh
      obtain ⟨g, hg, hp⟩ := hh
      rw [List.mem_filter] at hg
      obtain ⟨hgf, hcond⟩ := hg
      simp only [Bool.and_eq_true, decide_eq_true_eq] at hcond
      refine ⟨g, hgf, hcond.1, hcond.2, ?_⟩
      simp only [List.mem_cons, List.mem_singleton] at hp
      tauto
    match bfuel with
    | 0 => exact leafcase _ _ _ h
    | bfuel + 1 =>
      rw [build_octree] at h
      by_cases hlen : faces.length ≤ mf
      · rw [if_pos hlen] at h
        exact leafcase _ _ _ h
      · rw [if_neg hlen] at h
        cases hch : ((List.range 8).filterMap fun i =>
            let sub := faces.filter fun fidx =>
              get_octant c (tri_center (triAt tris fidx)) = i
            if sub.isEmpty then none
            else some (i, build_octree tris bfuel sub
              (child_center c (s.div (Dbl.ofInt 2)) i)
              (s.div (Dbl.ofInt 2)) (d + 1) mf)).isEmpty with
        | true =>
          simp only [query_octree, hch, if_true] at h
          rw [List.mem_flatMap] at h
          obtain ⟨g, hg, hp⟩ := h
          rw [List.mem_filter] at hg
          obtain ⟨hgf, hcond⟩ := hg
          simp only [Bool.and_eq_true, decide_eq_true_eq] at hcond
          refine ⟨g, hgf, hcond.1, hcond.2, ?_⟩
          simp only [List.mem_cons, List.mem_singleton] at hp
          tauto
        | false =>
          simp only [query_octree, hch, Bool.false_eq_true, if_false] at h
          rw [List.mem_flatMap] at h
          obtain ⟨ic, hic, hin⟩ := h
          rw [List.mem_filterMap] at hic
          obtain ⟨i, _hi, hsome⟩ := hic
          by_cases hemp : (faces.filter fun fidx =>
              get_octant c (tri_center (triAt tris fidx)) = i).isEmpty = true
          · rw [if_pos hemp] at hsome; cases hsome
          · rw [if_neg hemp] at hsome
            obtain rfl := Option.some.inj hsome
            by_cases hbb : (bbAt bbs f).intersects
                (cell_box (child_center c (s.div (Dbl.ofInt 2)) i) (s.div (Dbl.ofInt 2))) = true
            · simp only [if_pos hbb] at hin
              obtain ⟨g, hg, rest⟩ := ih hin
              exact ⟨g, (List.mem_filter.mp hg).1, rest⟩
            · rw [if_neg hbb] at hin
              simp at hin

/-- Squared distance is symmetric. -/
theorem distSq_symm (a b : Vector3d) : a.distSq b = b.distSq a := by
  simp only [Vector3d.distSq, Vector3d.sub, Vector3d.normSq, Dbl.sub, Dbl.mul, Dbl.add]
  refine congrArg₂ Dbl.mk ?_ ?_ <;> ring

/-- Shared-vertex proximity is symmetric. -/
theorem share_vertex_true_symm {t1 t2 : Triangle} (h : share_vertex t1 t2 = true) :
    share_vertex t2 t1 = true := by
  simp only [share_vertex, List.any_eq_true] at h ⊢
  obtain ⟨p, hp, q, hq, hlt⟩ := h
  exact ⟨q, hq, p, hp, by rw [distSq_symm]; exact hlt⟩

/-- The full-detector hit list is closed under swapping orientations. -/
theorem detect_hits_swap {V : List Vector3d} {F : List (ℤ × ℤ × ℤ)} {a b : ℤ}
    (h : (a, b) ∈ detect_hits V F) : (b, a) ∈ detect_hits V F := by
  simp only [detect_hits] at h ⊢
  rw [List.mem_flatMap] at h ⊢
  obtain ⟨fi, hfi, hq⟩ := h
  exact ⟨fi, hfi, query_octree_swap hq⟩

/-- No recorded full-detector hit joins two triangles that share a vertex
by proximity. -/
theorem detect_hits_share {V : List Vector3d} {F : List (ℤ × ℤ × ℤ)} {a b : ℤ}
    (h : (a, b) ∈ detect_hits V F) :
    share_vertex (triAt (mkTriangles V F) a) (triAt (mkTriangles V F) b) = false := by
  simp only [detect_hits] at h
  rw [List.mem_flatMap] at h
  obtain ⟨fi, hfi, hq⟩ := h
  obtain ⟨g0, hg0, hne, hpt, hor⟩ := query_octree_sound hq
  simp only [pairTest, Bool.and_eq_true, Bool.not_eq_true'] at hpt
  rcases hor with heq | heq <;> simp only [Prod.mk.injEq] at heq <;>
    obtain ⟨rfl, rfl⟩ := heq
  · exact hpt.1.2
  · cases hsh : share_vertex (triAt (mkTriangles V F) a) (triAt (mkTriangles V F) b) with
    | false => rfl
    | true =>
      exfalso
      have h2 := share_vertex_true_symm hsh
      rw [hpt.1.2] at h2
      cases h2

/-- Membership in the full-detector intersection map is membership of the
oriented pair in the hit list. -/
theorem mem_pierced_map {V : List Vector3d} {F : List (ℤ × ℤ × ℤ)} {f g : ℤ} :
    g ∈ pierced_map V F f ↔ (f, g) ∈ detect_hits V F := by
  simp only [pierced_map, List.mem_toFinset, List.mem_map, List.mem_filter]
  constructor
  · rintro ⟨p, ⟨hp, h1⟩, h2⟩
    have : p = (f, g) := by
      cases p; simp only [decide_eq_true_eq] at h1; simp_all
    rwa [this] at hp
  · intro h
    exact ⟨(f, g), ⟨h, by simp⟩, rfl⟩

/-- Claim C2: on a mesh with valid face indices, the intersection map of
the full detector is symmetric, and the returned intersecting-face set
equals the key set of the map. -/
theorem C2_intersection_symmetry (V : List Vector3d) (F : List (ℤ × ℤ × ℤ))
    (hvalid : valid_mesh V F) :
    (∀ f g : ℤ, g ∈ pierced_map V F f ↔ f ∈ pierced_map V F g)
    ∧ pierced_faces V F = pierced_keys V F := by
  refine ⟨fun f g => ⟨fun h => ?_, fun h => ?_⟩, ?_⟩
  · rw [mem_pierced_map] at h ⊢; exact detect_hits_swap h
  · rw [mem_pierced_map] at h ⊢; exact detect_hits_swap h
  · ext a
    simp only [pierced_faces, pierced_keys, List.mem_toFinset, List.mem_flatMap, List.mem_map]
    constructor
    · rintro ⟨p, hp, hap⟩
      simp only [List.mem_cons, List.not_mem_nil, or_false, List.mem_singleton] at hap
      rcases hap with rfl | rfl
      · exact ⟨p, hp, rfl⟩
      · refine ⟨(p.2, p.1), ?_, rfl⟩
        have hp2 : (p.1, p.2) ∈ detect_hits V F := by simpa using hp
        exact detect_hits_swap hp2
    · rintro ⟨p, hp, rfl⟩
      exact ⟨p, hp, by simp⟩

/-- Claim C2, witness at the two-triangle crossing mesh. -/
theorem C2_intersection_symmetry_witness :
    valid_mesh crossV crossF ∧
      (1 ∈ pierced_map crossV crossF 0 ↔ 0 ∈ pierced_map crossV crossF 1) :=
  ⟨by unfold valid_mesh; decide,
   (C2_intersection_symmetry crossV crossF (by unfold valid_mesh; decide)).1 0 1⟩

/-- Claim C3: whenever some vertex of the triangle of face f lies within
Euclidean distance 1e-10 of some vertex of the triangle of face g (stated
through squared distances, exactly equivalent), the full detector never
reports the pair: neither face appears under the other in the map, and
the pair contributes nothing to the recorded hits in either
orientation. -/
theorem C3_shared_vertex_excluded (V : List Vector3d) (F : List (ℤ × ℤ × ℤ)) (f g : ℤ)
    (h : ∃ p ∈ (triAt (mkTriangles V F) f).verts, ∃ q ∈ (triAt (mkTriangles V F) g).verts,
        (p.distSq q).lt EPSILON_SQ = true) :
    g ∉ pierced_map V F f ∧ f ∉ pierced_map V F g
    ∧ (f, g) ∉ detect_hits V F ∧ (g, f) ∉ detect_hits V F := by
  have hsh : share_vertex (triAt (mkTriangles V F) f) (triAt (mkTriangles V F) g) = true := by
    simp only [share_vertex, List.any_eq_true]; exact h
  have hfg : (f, g) ∉ detect_hits V F := by
    intro hmem
    have h2 := detect_hits_share hmem
    rw [hsh] at h2; cases h2
  have hgf : (g, f) ∉ detect_hits V F := by
    intro hmem
    have h2 := detect_hits_share hmem
    have h3 := share_vertex_true_symm hsh
    rw [h3] at h2; cases h2
  exact ⟨fun hm => hfg (mem_pierced_map.mp hm), fun hm => hgf (mem_pierced_map.mp hm),
    hfg, hgf⟩

/-- Claim C3, witness at the shared-edge unit-square mesh. -/
theorem C3_shared_vertex_excluded_witness :
    (∃ p ∈ (triAt (mkTriangles sqV sqF) 0).verts,
       ∃ q ∈ (triAt (mkTriangles sqV sqF) 1).verts, (p.distSq q).lt EPSILON_SQ = true)
    ∧ (1 ∉ pierced_map sqV sqF 0 ∧ 0 ∉ pierced_map sqV sqF 1
       ∧ ((0:ℤ), (1:ℤ)) ∉ detect_hits sqV sqF ∧ ((1:ℤ), (0:ℤ)) ∉ detect_hits sqV sqF) :=
  ⟨by decide, C3_shared_vertex_excluded sqV sqF 0 1 (by decide)⟩

theorem local_cand_step_subset (s : IndexState) (acc : Finset ℤ) (t : ℤ) :
    acc ⊆ local_cand_step s acc t := by
  unfold local_cand_step
  by_cases hv : 0 ≤ t ∧ t < (s.num_faces : ℤ)
  · rw [if_pos hv]
    cases hoct : s.octree with
    | some root =>
      exact subset_trans (Finset.subset_insert t acc) Finset.subset_union_left
    | none => exact Finset.subset_insert t acc
  · rw [if_neg hv]; exact Finset.subset_insert t acc

/-- Every target is inserted into the candidate set by its own step,
before the range check. -/
theorem mem_local_cand_step_self (s : IndexState) (acc : Finset ℤ) (t : ℤ) :
    t ∈ local_cand_step s acc t := by
  unfold local_cand_step
  by_cases hv : 0 ≤ t ∧ t < (s.num_faces : ℤ)
  · rw [if_pos hv]
    cases hoct : s.octree with
    | some root => exact Finset.mem_union_left _ (Finset.mem_insert_self t acc)
    | none => exact Finset.mem_insert_self t acc
  · rw [if_neg hv]; exact Finset.mem_insert_self t acc

/-- The candidate fold keeps earlier members and adds every listed
target. -/
theorem mem_foldl_cand_step (s : IndexState) :
    ∀ (l : List ℤ) (acc : Finset ℤ) (t : ℤ), t ∈ l ∨ t ∈ acc →
      t ∈ l.foldl (local_cand_step s) acc := by
  intro l
  induction l with
  | nil => intro acc t h; simpa using h.resolve_left (by simp)
  | cons hd rest ih =>
    intro acc t h
    rw [List.foldl_cons]
    rcases h with hl | hacc
    · rcases List.mem_cons.mp hl with rfl | hrest
      · exact ih _ t (Or.inr (mem_local_cand_step_self s acc t))
      · exact ih _ t (Or.inl hrest)
    · exact ih _ t (Or.inr (local_cand_step_subset s acc hd hacc))

/-- Every target belongs to the candidate set of the local detector. -/
theorem target_mem_local_candidates (s : IndexState) {t : ℤ} {targets : List ℤ}
    (h : t ∈ targets) : t ∈ local_candidates s targets :=
  mem_foldl_cand_step s targets ∅ t (Or.inl h)

/-- Value at an index after the update fold: the freshly computed value
when the index is listed (in range), the original entry otherwise. -/
theorem foldl_set_getD {α : Type} (m : ℕ) (val : ℕ → α) (dflt : α) :
    ∀ (mods : List ℤ) (init : List α), init.length = m → ∀ k : ℕ, k < m →
    ((mods.foldl (fun acc i =>
        if 0 ≤ i ∧ i < (m : ℤ) then acc.set i.toNat (val i.toNat) else acc) init).getD k dflt)
      = if (k : ℤ) ∈ mods then val k else init.getD k dflt := by
  intro mods
  induction mods with
  | nil => intro init hlen k hk; simp
  | cons i rest ih =>
    intro init hlen k hk
    rw [List.foldl_cons]
    by_cases hv : 0 ≤ i ∧ i < (m : ℤ)
    · rw [if_pos hv]
      have hlen2 : (init.set i.toNat (val i.toNat)).length = m := by simp [hlen]
      rw [ih _ hlen2 k hk]
      by_cases hmem : (k : ℤ) ∈ rest
      · rw [if_pos hmem, if_pos (List.mem_cons_of_mem _ hmem)]
      · rw [if_neg hmem]
        by_cases hik : i.toNat = k
        · have hi : i = (k : ℤ) := by omega
          rw [if_pos (by rw [hi]; exact List.mem_cons_self _ _)]
          subst hik
          rw [List.getD_eq_getElem?_getD,
            List.getElem?_set_self (by rw [hlen]; omega)]
          rfl
        · rw [List.getD_eq_getElem?_getD, List.getElem?_set_ne hik,
            ← List.getD_eq_getElem?_getD]
          rw [if_neg ?_]
          intro hc
          rcases List.mem_cons.mp hc with heq | hr
          · exact hik (by omega)
          · exact hmem hr
    · rw [if_neg hv]
      rw [ih _ hlen k hk]
      by_cases hmem : (k : ℤ) ∈ rest
      · rw [if_pos hmem, if_pos (List.mem_cons_of_mem _ hmem)]
      · rw [if_neg hmem, if_neg ?_]
        intro hc
        rcases List.mem_cons.mp hc with heq | hr
        · apply hv; constructor <;> omega
        · exact hmem hr

/-- Initialization establishes agreement of the state with its mesh. -/
theorem initialize_invariant (V : List Vector3d) (F : List (ℤ × ℤ × ℤ)) :
    IndexInvariant (initialize_spatial_index V F) V F :=
  ⟨rfl, rfl, rfl, rfl, rfl⟩

/-- The update fold preserves the array length. -/
theorem foldl_set_length {α : Type} (m : ℕ) (val : ℕ → α) :
    ∀ (mods : List ℤ) (init : List α),
    (mods.foldl (fun acc i =>
        if 0 ≤ i ∧ i < (m : ℤ) then acc.set i.toNat (val i.toNat) else acc) init).length
      = init.length := by
  intro mods
  induction mods with
  | nil => intro init; rfl
  | cons i rest ih =>
    intro init
    rw [List.foldl_cons]
    rw [ih]
    by_cases hv : 0 ≤ i ∧ i < (m : ℤ)
    · rw [if_pos hv, List.length_set]
    · rw [if_neg hv]

/-- Reading a mapped bounding-box array commutes with the map. -/
theorem getD_map_aabb (l : List Triangle) (k : ℕ) :
    (l.map compute_triangle_aabb).getD k (compute_triangle_aabb Triangle.default)
      = compute_triangle_aabb (l.getD k Triangle.default) := by
  rw [List.getD_eq_getElem?_getD, List.getElem?_map, List.getD_eq_getElem?_getD]
  cases l[k]? <;> rfl

/-- Reading the built triangle array at an in-range face index gives the
triangle of that face. -/
theorem mkTriangles_getD (V : List Vector3d) (F : List (ℤ × ℤ × ℤ)) (k : ℕ)
    (hk : k < F.length) :
    (mkTriangles V F).getD k Triangle.default = mkTriangle V F k := by
  rw [mkTriangles, List.getD_eq_getElem _ _ (by simpa using hk)]
  simp

/-- An update whose modified-face list covers every changed face leaves
the state in agreement with the new mesh (a size change triggers a full
reinitialization, which also does). -/
theorem update_preserves (s : IndexState) (V0 : List Vector3d) (F0 : List (ℤ × ℤ × ℤ))
    (V : List Vector3d) (F : List (ℤ × ℤ × ℤ)) (mods : List ℤ)
    (hInv : IndexInvariant s V0 F0) (hcov : covers_changes s V F mods) :
    IndexInvariant (update_spatial_index s V F mods) V F := by
  obtain ⟨htris, hbbs, hnf, hnv, hinit⟩ := hInv
  unfold update_spatial_index
  rw [if_neg (by rw [hinit]; simp)]
  by_cases hsz : s.num_faces ≠ F.length ∨ s.num_vertices ≠ V.length
  · rw [if_pos hsz]; exact initialize_invariant V F
  · rw [if_neg hsz]
    push_neg at hsz
    obtain ⟨hfl, hvl⟩ := hsz
    have hlen_tris : s.triangles.length = F.length := by
      rw [htris]; simp only [mkTriangles, List.length_map, List.length_range]; omega
    have hlen_bbs : s.bboxes.length = F.length := by
      rw [hbbs]; simp only [mkTriangles, List.length_map, List.length_range]; omega
    have hsbb : s.bboxes = s.triangles.map compute_triangle_aabb := by
      rw [hbbs, htris]
    have hcov2 : ∀ k : ℕ, k < F.length →
        ¬ ((k : ℤ) ∈ mods) → s.triangles.getD k Triangle.default = mkTriangle V F k := by
      intro k hk hnm
      by_contra hne
      exact hnm (hcov k hk fun hx => hne hx.symm)
    refine ⟨?_, ?_, hfl, hvl, hinit⟩
    · show (mods.foldl (fun acc i =>
          if 0 ≤ i ∧ i < (s.num_faces : ℤ) then acc.set i.toNat (mkTriangle V F i.toNat)
          else acc) s.triangles) = mkTriangles V F
      rw [hfl]
      apply List.ext_getElem
      · rw [foldl_set_length F.length (mkTriangle V F) mods s.triangles, hlen_tris]
        simp [mkTriangles]
      · intro k h1 h2
        have hk : k < F.length := by
          rw [foldl_set_length F.length (mkTriangle V F) mods s.triangles, hlen_tris] at h1
          exact h1
        rw [← List.getD_eq_getElem _ Triangle.default h1,
            ← List.getD_eq_getElem _ Triangle.default h2]
        rw [foldl_set_getD F.length (mkTriangle V F) Triangle.default mods s.triangles
            hlen_tris k hk]
        rw [mkTriangles_getD V F k hk]
        by_cases hmem : (k : ℤ) ∈ mods
        · rw [if_pos hmem]
        · rw [if_neg hmem, hcov2 k hk hmem]
    · show (mods.foldl (fun acc i =>
          if 0 ≤ i ∧ i < (s.num_faces : ℤ) then
            acc.set i.toNat (compute_triangle_aabb (mkTriangle V F i.toNat))
          else acc) s.bboxes) = (mkTriangles V F).map compute_triangle_aabb
      rw [hfl]
      apply List.ext_getElem
      · rw [foldl_set_length F.length
            (fun n => compute_triangle_aabb (mkTriangle V F n)) mods s.bboxes, hlen_bbs]
        simp [mkTriangles]
      · intro k h1 h2
        have hk : k < F.length := by
          rw [foldl_set_length F.length
              (fun n => compute_triangle_aabb (mkTriangle V F n)) mods s.bboxes, hlen_bbs] at h1
          exact h1
        rw [← List.getD_eq_getElem _ (compute_triangle_aabb Triangle.default) h1,
            ← List.getD_eq_getElem _ (compute_triangle_aabb Triangle.default) h2]
        rw [foldl_set_getD F.length (fun n => compute_triangle_aabb (mkTriangle V F n))
            (compute_triangle_aabb Triangle.default) mods s.bboxes hlen_bbs k hk]
        rw [getD_map_aabb, mkTriangles_getD V F k hk]
        by_cases hmem : (k : ℤ) ∈ mods
        · rw [if_pos hmem]
        · rw [if_neg hmem, hsbb, getD_map_aabb, hcov2 k hk hmem]

/-- Core containment: against a state that agrees with the mesh, the
local detector run on the all-faces target list records every hit of the
full detector.  Candidate sets only matter through membership of the
targets, so a stale or rebuilt octree cannot drop a pair here. -/
theorem local_contains_full (s : IndexState) (V : List Vector3d) (F : List (ℤ × ℤ × ℤ))
    (hInv : IndexInvariant s V F) {a b : ℤ}
    (h : (a, b) ∈ detect_hits V F) :
    (a, b) ∈ (detect_pierced_faces_local s V F (all_faces F.length)).2 := by
  obtain ⟨htris, hbbs, hnf, hnv, hinit⟩ := hInv
  unfold detect_pierced_faces_local
  rw [if_pos hinit]
  simp only [detect_hits] at h
  rw [List.mem_flatMap] at h
  obtain ⟨fi, hfi, hq⟩ := h
  obtain ⟨g0, hg0, hne, hpt, hor⟩ := query_octree_sound hq
  have hpt2 : pairTest s.triangles s.bboxes fi g0 = true := by
    rw [htris, hbbs]; exact hpt
  have hfic : fi ∈ local_candidates s (all_faces F.length) :=
    target_mem_local_candidates s hfi
  have hg0c : g0 ∈ local_candidates s (all_faces F.length) :=
    target_mem_local_candidates s hg0
  have hmain : ∀ x y : ℤ, x ∈ local_candidates s (all_faces F.length) →
      x ∈ all_faces F.length → y ∈ local_candidates s (all_faces F.length) →
      y ≠ x → pairTest s.triangles s.bboxes x y = true →
      ((x, y) ∈ local_hits s (all_faces F.length) ∧
       (y, x) ∈ local_hits s (all_faces F.length)) := by
    intro x y hxc hxt hyc hyx hp
    have hbase : ∀ p : ℤ × ℤ, p ∈ ({(x, y), (y, x)} : Finset (ℤ × ℤ)) →
        p ∈ local_hits s (all_faces F.length) := by
      intro p hp2
      unfold local_hits
      refine Finset.mem_biUnion.mpr ⟨x, hxc, ?_⟩
      rw [if_pos hxt]
      refine Finset.mem_biUnion.mpr ⟨y, ?_, hp2⟩
      rw [Finset.mem_filter]
      exact ⟨hyc, hyx, hp⟩
    exact ⟨hbase _ (by simp), hbase _ (by simp)⟩
  have hres := hmain fi g0 hfic hfi hg0c hne hpt2
  rcases hor with heq | heq <;> simp only [Prod.mk.injEq] at heq <;>
      obtain ⟨rfl, rfl⟩ := heq
  · exact hres.1
  · exact hres.2

/-- Claim C1, amended: the claimed output equality of incremental local
detection and fresh full detection fails on the code (counterexample
below); what holds, and what the testable-properties section itself
falls back to, is containment under an accuracy proviso on the updates.
After initialize_spatial_index, and along any sequence of
update_spatial_index calls each of whose modified-face lists names every
face whose triangle changed, the persistent state agrees with the final
mesh; detect_pierced_faces_local over the all-faces target list then
returns a superset of the full detection output: every intersecting face
and every intersection-map entry of detect_pierced_faces also appears in
the local result. -/
theorem C1_local_detection_superset :
    (∀ (V : List Vector3d) (F : List (ℤ × ℤ × ℤ)),
      IndexInvariant (initialize_spatial_index V F) V F)
    ∧ (∀ (s : IndexState) (V0 : List Vector3d) (F0 : List (ℤ × ℤ × ℤ))
        (V : List Vector3d) (F : List (ℤ × ℤ × ℤ)) (mods : List ℤ),
        IndexInvariant s V0 F0 → covers_changes s V F mods →
        IndexInvariant (update_spatial_index s V F mods) V F)
    ∧ (∀ (s : IndexState) (V : List Vector3d) (F : List (ℤ × ℤ × ℤ)),
        IndexInvariant s V F →
        pierced_faces V F ⊆
          local_faces (detect_pierced_faces_local s V F (all_faces F.length)).2
        ∧ ∀ f g : ℤ, g ∈ pierced_map V F f →
            g ∈ local_map (detect_pierced_faces_local s V F (all_faces F.length)).2 f) := by
  refine ⟨initialize_invariant, update_preserves, ?_⟩
  intro s V F hInv
  constructor
  · intro a ha
    simp only [pierced_faces, List.mem_toFinset, List.mem_flatMap] at ha
    obtain ⟨p, hp, hap⟩ := ha
    have hp2 : (p.1, p.2) ∈ detect_hits V F := by simpa using hp
    have hloc := local_contains_full s V F hInv hp2
    simp only [List.mem_cons, List.not_mem_nil, or_false, List.mem_singleton] at hap
    unfold local_faces
    rcases hap with rfl | rfl
    · exact Finset.mem_union_left _ (Finset.mem_image.mpr ⟨(p.1, p.2), hloc, rfl⟩)
    · exact Finset.mem_union_right _ (Finset.mem_image.mpr ⟨(p.1, p.2), hloc, rfl⟩)
  · intro f g hg
    rw [mem_pierced_map] at hg
    have hloc := local_contains_full s V F hInv hg
    unfold local_map
    exact Finset.mem_image.mpr ⟨(f, g), Finset.mem_filter.mpr ⟨hloc, rfl⟩, rfl⟩


set_option maxRecDepth 4000 in
/-- Claim C1, counterexample: initialize on the crossing mesh, update to
the moved mesh with an empty modified-face list (zero modified faces, so
the ten-percent rebuild proviso of the claim holds vacuously), then run
local detection over all faces of the final mesh.  The persisted
triangles are stale, the local result reports the two faces as pierced,
and the fresh full detection on the final mesh reports nothing: the
outputs differ. -/
theorem C1_counterexample :
    local_faces (detect_pierced_faces_local stale_state crossVfar crossF
        (all_faces crossF.length)).2 = {0, 1}
    ∧ pierced_faces crossVfar crossF = ∅ := by decide

/-- Claim C1, witness: the amended theorem instantiated on the crossing
mesh and its moved variant, with a covering modified-face list. -/
theorem C1_local_detection_superset_witness :
    IndexInvariant (initialize_spatial_index crossV crossF) crossV crossF
    ∧ covers_changes (initialize_spatial_index crossV crossF) crossVfar crossF [0, 1]
    ∧ IndexInvariant (update_spatial_index (initialize_spatial_index crossV crossF)
        crossVfar crossF [0, 1]) crossVfar crossF
    ∧ pierced_faces crossV crossF ⊆
        local_faces (detect_pierced_faces_local (initialize_spatial_index crossV crossF)
          crossV crossF (all_faces crossF.length)).2 :=
  ⟨C1_local_detection_superset.1 crossV crossF,
   by unfold covers_changes; decide,
   C1_local_detection_superset.2.1 _ crossV crossF crossVfar crossF [0, 1]
     (C1_local_detection_superset.1 crossV crossF) (by unfold covers_changes; decide),
   (C1_local_detection_superset.2.2 _ crossV crossF
     (C1_local_detection_superset.1 crossV crossF)).1⟩

set_option maxRecDepth 4000 in
/-- Claim C7: on the one-face mesh, a local detection call whose target
list contains the out-of-range index 1 (the face count is 1) does not
skip it: the index is inserted into the candidate set before the range
check, participates in pair testing against the out-of-range read of the
persistent arrays (undefined behaviour in C++, a zero triangle here),
and the invalid index leaks into the returned face set and map. -/
theorem C7_invalid_index_leaks :
    ((1 : ℤ) ∈ local_faces (detect_pierced_faces_local
        (initialize_spatial_index oneV oneF) oneV oneF [0, 1]).2)
    ∧ (1 : ℤ) ∈ local_map (detect_pierced_faces_local
        (initialize_spatial_index oneV oneF) oneV oneF [0, 1]).2 0
    ∧ oneF.length = 1 := by decide

/-- Pairs emitted by one inner-loop step carry exactly the loop indices. -/
theorem adj_pair_emit_shape (V : List Vector3d) (F : List (ℤ × ℤ × ℤ)) (threshold : Dbl)
    (i j : ℕ) {p : ℕ × ℕ} (h : p ∈ adj_pair_emit V F threshold i j) : p = (i, j) := by
  unfold adj_pair_emit at h
  split at h
  · split at h <;> simp_all
  · split at h <;> simp_all

/-- Claim C5: for an ordered pair i < j of faces with all six vertex
indices in range, detect_adjacent_faces reports the pair exactly per the
three-branch rule on the centroid distance d and the smaller average
edge length L: adjacent when both are below 1e-10, skipped when only L
is, otherwise adjacent exactly when d / L is at most the threshold. -/
theorem C5_adjacent_three_branch (V : List Vector3d) (F : List (ℤ × ℤ × ℤ))
    (threshold : Dbl) (i j : ℕ) (hij : i < j) (hjm : j < F.length)
    (hvi : face_valid V.length (face_at F i) = true)
    (hvj : face_valid V.length (face_at F j) = true) :
    (i, j) ∈ detect_adjacent_faces V F threshold ↔ spec_adjacent_rule V F threshold i j := by
  unfold detect_adjacent_faces
  rw [List.mem_flatMap]
  constructor
  · rintro ⟨i0, hi0, hmem⟩
    cases hv0 : face_valid V.length (face_at F i0) with
    | false => rw [hv0] at hmem; simp at hmem
    | true =>
      rw [hv0] at hmem
      simp only [Bool.not_true, Bool.false_eq_true, if_false] at hmem
      rw [List.mem_flatMap] at hmem
      obtain ⟨j0, hj0, hin⟩ := hmem
      cases hv1 : face_valid V.length (face_at F j0) with
      | false => rw [hv1] at hin; simp at hin
      | true =>
        rw [hv1] at hin
        simp only [Bool.not_true, Bool.false_eq_true, if_false] at hin
        have hpe := adj_pair_emit_shape V F threshold i0 j0 hin
        simp only [Prod.mk.injEq] at hpe
        obtain ⟨rfl, rfl⟩ := hpe
        unfold adj_pair_emit at hin
        unfold spec_adjacent_rule
        split at hin
        · next hL =>
          split at hin
          · next hd => exact Or.inl ⟨hL, hd⟩
          · simp at hin
        · next hL =>
          split at hin
          · next hdl => exact Or.inr ⟨Bool.not_eq_true _ ▸ hL, hdl⟩
          · simp at hin
  · intro hrule
    refine ⟨i, List.mem_range.mpr (lt_trans hij hjm), ?_⟩
    rw [hvi]
    simp only [Bool.not_true, Bool.false_eq_true, if_false]
    rw [List.mem_flatMap]
    refine ⟨j, ?_, ?_⟩
    · rw [List.mem_range'_1]
      constructor <;> omega
    · rw [hvj]
      simp only [Bool.not_true, Bool.false_eq_true, if_false]
      unfold adj_pair_emit
      unfold spec_adjacent_rule at hrule
      rcases hrule with ⟨hL, hd⟩ | ⟨hL, hdl⟩
      · rw [if_pos hL, if_pos hd]; simp
      · rw [if_neg (by rw [hL]; simp), if_pos hdl]; simp

/-- Claim C5, witness at the unit-square mesh with the default 0.5
threshold. -/
theorem C5_adjacent_three_branch_witness :
    (0 < 1 ∧ 1 < sqF.length
      ∧ face_valid sqV.length (face_at sqF 0) = true
      ∧ face_valid sqV.length (face_at sqF 1) = true)
    ∧ ((0, 1) ∈ detect_adjacent_faces sqV sqF (Dbl.frac 1 2)
        ↔ spec_adjacent_rule sqV sqF (Dbl.frac 1 2) 0 1) :=
  ⟨⟨by decide, by decide, by decide, by decide⟩,
   C5_adjacent_three_branch sqV sqF (Dbl.frac 1 2) 0 1
     (by decide) (by decide) (by decide) (by decide)⟩

/-- Clamping min(1, max(0, x)) lands in [0, 1] for any fraction x. -/
theorem clamp01_bounds (x : Dbl) :
    Dbl.le Dbl.zero ((Dbl.ofInt 1).fmin (Dbl.zero.fmax x)) = true
    ∧ Dbl.le ((Dbl.ofInt 1).fmin (Dbl.zero.fmax x)) (Dbl.ofInt 1) = true := by
  unfold Dbl.fmin Dbl.fmax Dbl.le Dbl.lt Dbl.zero Dbl.ofInt
  constructor <;> (split <;> (try split) <;> simp_all <;> omega)

/-- Branch behaviour and range of calculate_face_quality for any
triangle. -/
theorem face_quality_branches (t : Triangle) :
    ((heron_area t).lt EPSILON = true → calculate_face_quality t = Dbl.zero)
    ∧ ((heron_area t).lt EPSILON = false →
        calculate_face_quality t =
          (Dbl.ofInt 1).fmin (Dbl.zero.fmax ((Dbl.ofInt 2).mul
            (((heron_area t).div (tri_s t)).div
              ((((tri_side_a t).mul (tri_side_b t)).mul (tri_side_c t)).div
                ((Dbl.ofInt 4).mul (heron_area t)))))))
    ∧ Dbl.le Dbl.zero (calculate_face_quality t) = true
    ∧ Dbl.le (calculate_face_quality t) (Dbl.ofInt 1) = true := by
  refine ⟨fun h => ?_, fun h => ?_, ?_, ?_⟩
  · unfold calculate_face_quality; rw [if_pos h]
  · unfold calculate_face_quality; rw [if_neg (by rw [h]; simp)]
  · unfold calculate_face_quality
    split
    · decide
    · exact (clamp01_bounds _).1
  · unfold calculate_face_quality
    split
    · decide
    · exact (clamp01_bounds _).2

/-- Claim C6: calculate_face_quality returns 0 when the Heron area is
below 1e-10 and otherwise the clamp into [0,1] of twice the inradius to
circumradius ratio; consequently every quality value computed by
analyze_face_quality lies in [0, 1]. -/
theorem C6_quality_clamped_range :
    (∀ t : Triangle,
      ((heron_area t).lt EPSILON = true → calculate_face_quality t = Dbl.zero)
      ∧ ((heron_area t).lt EPSILON = false →
          calculate_face_quality t =
            (Dbl.ofInt 1).fmin (Dbl.zero.fmax ((Dbl.ofInt 2).mul
              (((heron_area t).div (tri_s t)).div
                ((((tri_side_a t).mul (tri_side_b t)).mul (tri_side_c t)).div
                  ((Dbl.ofInt 4).mul (heron_area t))))))))
    ∧ ∀ (V : List Vector3d) (F : List (ℤ × ℤ × ℤ)), ∀ q ∈ quality_values V F,
        Dbl.le Dbl.zero q = true ∧ Dbl.le q (Dbl.ofInt 1) = true := by
  refine ⟨fun t => ⟨(face_quality_branches t).1, (face_quality_branches t).2.1⟩,
    fun V F q hq => ?_⟩
  unfold quality_values at hq
  rw [List.mem_map] at hq
  obtain ⟨i, _, rfl⟩ := hq
  exact ⟨(face_quality_branches _).2.2.1, (face_quality_branches _).2.2.2⟩

/-- Claim C6, witness: the degenerate zero triangle takes the zero
branch, and the first quality value of the unit-square mesh is in
range. -/
theorem C6_quality_clamped_range_witness :
    ((heron_area Triangle.default).lt EPSILON = true
      ∧ calculate_face_quality Triangle.default = Dbl.zero)
    ∧ (calculate_face_quality (mkTriangle sqV sqF 0) ∈ quality_values sqV sqF
      ∧ Dbl.le Dbl.zero (calculate_face_quality (mkTriangle sqV sqF 0)) = true) :=
  ⟨⟨by decide, (C6_quality_clamped_range.1 Triangle.default).1 (by decide)⟩,
   ⟨by decide,
    (C6_quality_clamped_range.2 sqV sqF (calculate_face_quality (mkTriangle sqV sqF 0))
      (by decide)).1⟩⟩

/-- Every histogram bin index is below ten. -/
theorem quality_bin_lt_ten (q : Dbl) : quality_bin q < 10 := by
  unfold quality_bin
  repeat' split
  all_goals omega

/-- Counting each value of a list of sub-ten naturals over the bins 0..9
recovers the list length. -/
theorem count_range_sum (l : List ℕ) (h : ∀ x ∈ l, x < 10) :
    ∑ b ∈ Finset.range 10, l.count b = l.length := by
  induction l with
  | nil => simp
  | cons a t ih =>
    have ha : a < 10 := h a (List.mem_cons_self a t)
    have ht : ∀ x ∈ t, x < 10 := fun x hx => h x (List.mem_cons_of_mem _ hx)
    simp only [List.count_cons, beq_iff_eq, List.length_cons]
    rw [Finset.sum_add_distrib, ih ht]
    congr 1
    rw [Finset.sum_ite_eq (Finset.range 10) a (fun _ => (1:ℕ)),
      if_pos (Finset.mem_range.mpr ha)]

/-- Claim C10: the if-else chain of analyze_face_quality places every
face in exactly one of the ten histogram bins, so the ten counts of the
quality distribution sum to the total face count. -/
theorem C10_histogram_total (V : List Vector3d) (F : List (ℤ × ℤ × ℤ)) :
    ∑ b ∈ Finset.range 10, quality_distribution V F b = F.length := by
  unfold quality_distribution
  have hb : ∀ x ∈ (quality_values V F).map quality_bin, x < 10 := by
    intro x hx
    rw [List.mem_map] at hx
    obtain ⟨q, _, rfl⟩ := hx
    exact quality_bin_lt_ten q
  rw [count_range_sum _ hb]
  simp [quality_values]

/-- Claim C9: the tolerance argument of detect_non_manifold_vertices is
never consulted, so any two tolerances give the same vertex set. -/
theorem C9_tolerance_unused (V : List Vector3d) (F : List (ℤ × ℤ × ℤ)) (t1 t2 : Dbl) :
    detect_non_manifold_vertices V F t1 = detect_non_manifold_vertices V F t2 := rfl

/-- Flattening the buckets after one insertion appends exactly the new
incidence, up to permutation. -/
theorem bucket_insert_flat (key : EdgeKey) (e : ℤ × ℤ) :
    ∀ bs : List (EdgeKey × List (ℤ × ℤ)),
    ((bucket_insert key e bs).flatMap fun b => b.2).Perm
      ((bs.flatMap fun b => b.2) ++ [e]) := by
  intro bs
  induction bs with
  | nil => simp [bucket_insert]
  | cons b rest ih =>
    obtain ⟨k, l⟩ := b
    by_cases hk : edgeKeyEq k key = true
    · rw [bucket_insert, if_pos hk]
      simp only [List.flatMap_cons]
      have h := List.Perm.append_left l
        (@List.perm_append_comm _ [e] (rest.flatMap fun b => b.2))
      rw [← List.append_assoc, ← List.append_assoc] at h
      exact h
    · rw [bucket_insert, if_neg hk]
      simp only [List.flatMap_cons]
      have h := List.Perm.append_left l ih
      rw [← List.append_assoc] at h
      exact h

/-- One insertion keeps every bucket nonempty and an in-order sublist of
the incidences seen so far. -/
theorem bucket_insert_sublist (key : EdgeKey) (e : ℤ × ℤ) (done : List (ℤ × ℤ)) :
    ∀ bs : List (EdgeKey × List (ℤ × ℤ)),
    (∀ b ∈ bs, b.2 ≠ [] ∧ b.2.Sublist done) →
    ∀ b ∈ bucket_insert key e bs, b.2 ≠ [] ∧ b.2.Sublist (done ++ [e]) := by
  intro bs
  induction bs with
  | nil =>
    intro _ b hb
    simp only [bucket_insert, List.mem_singleton] at hb
    subst hb
    exact ⟨by simp, List.sublist_append_right .. |>.trans (List.Sublist.refl _)⟩
  | cons b0 rest ih =>
    obtain ⟨k, l⟩ := b0
    intro hbs b hb
    have hhead := hbs (k, l) (List.mem_cons_self ..)
    have hrest : ∀ b ∈ rest, b.2 ≠ [] ∧ b.2.Sublist done :=
      fun b hb => hbs b (List.mem_cons_of_mem _ hb)
    by_cases hk : edgeKeyEq k key = true
    · rw [bucket_insert, if_pos hk] at hb
      rcases List.mem_cons.mp hb with rfl | hbr
      · refine ⟨by simp, ?_⟩
        exact List.Sublist.append hhead.2 (List.Sublist.refl [e])
      · have h2 := hrest b hbr
        exact ⟨h2.1, h2.2.trans (List.sublist_append_left ..)⟩
    · rw [bucket_insert, if_neg hk] at hb
      rcases List.mem_cons.mp hb with rfl | hbr
      · exact ⟨hhead.1, hhead.2.trans (List.sublist_append_left ..)⟩
      · exact ih hrest b hbr

/-- Fold invariant of the edge map: buckets stay nonempty in-order
sublists of the processed incidences, which they partition. -/
theorem edge_buckets_invariant (V : List Vector3d) :
    ∀ (es : List (ℤ × ℤ)) (bs : List (EdgeKey × List (ℤ × ℤ))) (done : List (ℤ × ℤ)),
    (∀ b ∈ bs, b.2 ≠ [] ∧ b.2.Sublist done) →
    ((bs.flatMap fun b => b.2).Perm done) →
    (∀ b ∈ es.foldl
        (fun bs e => bucket_insert (mkEdgeKey (vAt V e.1) (vAt V e.2)) e bs) bs,
      b.2 ≠ [] ∧ b.2.Sublist (done ++ es))
    ∧ ((es.foldl
        (fun bs e => bucket_insert (mkEdgeKey (vAt V e.1) (vAt V e.2)) e bs) bs).flatMap
          fun b => b.2).Perm (done ++ es) := by
  intro es
  induction es with
  | nil =>
    intro bs done h1 h2
    rw [List.foldl_nil, List.append_nil]
    exact ⟨h1, h2⟩
  | cons e rest ih =>
    intro bs done h1 h2
    rw [List.foldl_cons]
    have h1' := bucket_insert_sublist (mkEdgeKey (vAt V e.1) (vAt V e.2)) e done bs h1
    have h2' : ((bucket_insert (mkEdgeKey (vAt V e.1) (vAt V e.2)) e bs).flatMap
        fun b => b.2).Perm (done ++ [e]) :=
      (bucket_insert_flat _ e bs).trans (List.Perm.append_right [e] h2)
    have h3 := ih _ (done ++ [e]) h1' h2'
    rw [List.append_assoc, List.singleton_append] at h3
    exact h3

/-- Claim C8: the edge-map buckets partition the face-edge incidences
taken in scan order (faces in index order, edges in order (v1,v2),
(v2,v3), (v3,v1)), each bucket holding them in insertion order; the
detector emits exactly one representative per bucket with more than two
incidences, namely that bucket's first-inserted vertex-index pair. -/
theorem C8_overlapping_edges_rep (V : List Vector3d) (F : List (ℤ × ℤ × ℤ)) :
    (∀ b ∈ edge_buckets V F, b.2 ≠ [] ∧ b.2.Sublist (edge_incidences F))
    ∧ ((edge_buckets V F).flatMap fun b => b.2).Perm (edge_incidences F)
    ∧ (∀ e : ℤ × ℤ, e ∈ detect_overlapping_edges V F ↔
        ∃ b ∈ edge_buckets V F, 2 < b.2.length ∧ b.2.head? = some e) := by
  have hmain := edge_buckets_invariant V (edge_incidences F) [] [] (by simp) (by simp)
  rw [List.nil_append] at hmain
  refine ⟨hmain.1, hmain.2, ?_⟩
  intro e
  unfold detect_overlapping_edges
  rw [List.mem_filterMap]
  constructor
  · rintro ⟨b, hb, heq⟩
    by_cases hlen : 2 < b.2.length
    · rw [if_pos hlen] at heq
      exact ⟨b, hb, hlen, heq⟩
    · rw [if_neg hlen] at heq
      cases heq
  · rintro ⟨b, hb, hlen, hhead⟩
    exact ⟨b, hb, by rw [if_pos hlen]; exact hhead⟩

/-- Claim C8, witness at the doubled-edge mesh: the bucket of the shared
edge and the reported representative. -/
theorem C8_overlapping_edges_rep_witness :
    ((mkEdgeKey (vAt dblV 0) (vAt dblV 1), [((0:ℤ), (1:ℤ)), (0, 1), (0, 1)])
        ∈ edge_buckets dblV dblF
      ∧ [((0:ℤ), (1:ℤ)), (0, 1), (0, 1)] ≠ []
      ∧ List.Sublist [((0:ℤ), (1:ℤ)), (0, 1), (0, 1)] (edge_incidences dblF))
    ∧ ((0, 1) ∈ detect_overlapping_edges dblV dblF ↔
        ∃ b ∈ edge_buckets dblV dblF, 2 < b.2.length ∧ b.2.head? = some (0, 1)) :=
  ⟨⟨by decide,
    ((C8_overlapping_edges_rep dblV dblF).1
      (mkEdgeKey (vAt dblV 0) (vAt dblV 1), [((0:ℤ), (1:ℤ)), (0, 1), (0, 1)])
      (by decide)).1,
    ((C8_overlapping_edges_rep dblV dblF).1
      (mkEdgeKey (vAt dblV 0) (vAt dblV 1), [((0:ℤ), (1:ℤ)), (0, 1), (0, 1)])
      (by decide)).2⟩,
   (C8_overlapping_edges_rep dblV dblF).2.2 (0, 1)⟩
